import Mathlib

/-!
# Verification of the GeoSudoku puzzle validation and level-progression core

Shallow embedding of the scoring/progression core of the `geosudoku_webgame`
Django application:

* `validate_shape_placement` (games/views.py) — the placement validator;
* `PuzzleLevel.is_unlocked_for_user`, `UserLevelProgress.check_completion`,
  `UserLevelProgress.unlock_next_level`, `UserPuzzleAttempt.complete_attempt`
  (games/models.py) — the level-progression engine;
* `api_save_shape_game_state` (games/views.py) — the save/finalize endpoint;
* `check_user_achievements` (games/views.py) — the achievement evaluator;
* the duplicate progression module games/level_models.py, whose completion
  path evaluates `models.timezone.now()` where `models` is `django.db.models`.

Django ORM rows are embedded as records in lists; a model's `save()` is
writeback into the list; `objects.get_or_create` is `List.find?` plus append.
Timestamps are abstract `Nat` clock values supplied by callers.
-/

namespace GeoSudoku

abbrev UserId := Nat
abbrev ShapeId := Nat

/-- A `"row,col"`-style coordinate string, exactly as used as JSON keys in
`solution_data` and in placement payloads. -/
abbrev Pos := String

/-- The JSON value stored at one coordinate of a placement payload
(`current_state` / `placements`).  The view code reads it with
`placement.get('shapeId')`: a JSON object yields its `shapeId` member
(`none` when the member is absent or null); any non-object value has no
`.get` method, so the read raises `AttributeError`. -/
inductive PlacementVal where
  | obj (shapeId : Option ShapeId)
  | nonObj
deriving DecidableEq, Repr

/-- Result of reading `placement.get('shapeId')` in the validation loop. -/
def PlacementVal.getShapeId : PlacementVal → Except String (Option ShapeId)
  | .obj s => .ok s
  | .nonObj => .error "AttributeError: placement value has no attribute get"

/-- `GridTemplate.grid_data`: an N×N JSON matrix of cell markers; the string
`"?"` marks a question (blank) cell. -/
structure GridTemplate where
  grid_data : List (List String)
deriving DecidableEq, Repr

/-- The nested loop of `validate_shape_placement` counting cells equal to
`'?'` in `grid_template.grid_data`. -/
def countQuestions (grid_data : List (List String)) : Nat :=
  grid_data.foldl (fun acc row => acc + (row.filter (fun cell => cell == "?")).length) 0

/-- `ShapeGame` fields read by the validator and the save endpoint.
`solution_data` is a JSON object mapping coordinate strings to shape ids
(an association list with distinct keys; `solution.get(position)` is
`List.lookup`).  `points_per_correct` and `penalty_per_wrong` are Django
`IntegerField`s, hence `Int`.  Fields not read by the embedded functions
(name, description, available_shapes, max_time_minutes, timestamps) are
omitted. -/
structure ShapeGame where
  id : Nat
  is_active : Bool
  grid_template : GridTemplate
  solution_data : List (Pos × ShapeId)
  points_per_correct : Int
  penalty_per_wrong : Int
deriving DecidableEq, Repr

/-- One entry of the `validation_details` output object. -/
structure ValidationDetail where
  pos : Pos
  correct : Bool
  expected : Option ShapeId
  placed : Option ShapeId
deriving DecidableEq, Repr

/-- The dict returned by `validate_shape_placement`.  On the success path
`error` is `none`; on the exception path it holds the error message (the
Python error dict carries no `validation_details` key; we use `[]`). -/
structure ValidationResult where
  accuracy : ℚ
  final_score : Int
  correct_count : Nat
  incorrect_count : Nat
  total_questions : Nat
  is_complete : Bool
  is_perfect : Bool
  validation_details : List ValidationDetail
  error : Option String
deriving DecidableEq, Repr

/-- `round(x, 2)` from the Python source: round to 2 decimal places.
Accuracy values are exact rationals here; none of the verified properties
depends on tie-breaking at the third decimal. -/
def round2 (q : ℚ) : ℚ := ((round (q * 100) : ℤ) : ℚ) / 100

/-- The `for position, placement in placements.items()` loop of
`validate_shape_placement`, with the running counters as accumulators.
`placement.get('shapeId')` raises on a non-object placement value, aborting
the loop (the surrounding `try` catches it). -/
def scanPlacements (solution : List (Pos × ShapeId)) :
    Nat → Nat → List ValidationDetail → List (Pos × PlacementVal) →
    Except String (Nat × Nat × List ValidationDetail)
  | cc, ic, det, [] => .ok (cc, ic, det)
  | cc, ic, det, (pos, pv) :: rest =>
    match pv.getShapeId with
    | .error e => .error e
    | .ok placed =>
      let expected := solution.lookup pos
      let d : ValidationDetail :=
        { pos := pos, correct := decide (expected = placed),
          expected := expected, placed := placed }
      if expected = placed then
        scanPlacements solution (cc + 1) ic (det ++ [d]) rest
      else
        scanPlacements solution cc (ic + 1) (det ++ [d]) rest

/-- Body of the `try` block of `validate_shape_placement`: count question
cells, scan the placements, then derive accuracy and score.  The only
fallible step reachable in this embedding is the placement scan. -/
def validateInner (game : ShapeGame) (placements : List (Pos × PlacementVal)) :
    Except String ValidationResult :=
  match scanPlacements game.solution_data 0 0 [] placements with
  | .error e => .error e
  | .ok (cc, ic, det) =>
    let total_questions := countQuestions game.grid_template.grid_data
    let accuracy : ℚ :=
      if total_questions > 0 then (cc : ℚ) / (total_questions : ℚ) * 100 else 0
    let correct_points : Int := (cc : Int) * game.points_per_correct
    let penalty_points : Int := (ic : Int) * game.penalty_per_wrong
    let final_score : Int := max 0 (correct_points - penalty_points)
    .ok { accuracy := round2 accuracy
          final_score := final_score
          correct_count := cc
          incorrect_count := ic
          total_questions := total_questions
          is_complete := placements.length == total_questions
          is_perfect := ic == 0 && placements.length == total_questions
          validation_details := det
          error := none }

/-- The zeroed dict returned by the `except` clause of
`validate_shape_placement`. -/
def errorResult (e : String) : ValidationResult :=
  { accuracy := 0, final_score := 0, correct_count := 0, incorrect_count := 0,
    total_questions := 0, is_complete := false, is_perfect := false,
    validation_details := [], error := some e }

/-- `validate_shape_placement(game, placements)` from games/views.py: the
`try` body, with the catch-all `except` returning a zeroed result dict that
carries the error message. -/
def validate_shape_placement (game : ShapeGame)
    (placements : List (Pos × PlacementVal)) : ValidationResult :=
  match validateInner game placements with
  | .ok r => r
  | .error e => errorResult e

/-- The shape id a placement payload value carries: the `shapeId` member of
an object, `none` for a non-object (whose `.get` would raise). -/
def placedOpt : PlacementVal → Option ShapeId
  | .obj s => s
  | .nonObj => none

/-- Concrete game used to exercise the validator: a 1×1 grid whose single
cell is a question cell, and a solution object with an additional entry at a
coordinate that is not a blank cell of the grid (the code never checks the
solution's keys against the grid). -/
def gameC5 : ShapeGame :=
  { id := 0, is_active := true,
    grid_template := { grid_data := [["?"]] },
    solution_data := [("0,0", 1), ("1,1", 2)],
    points_per_correct := 10, penalty_per_wrong := 5 }

/-- Placement payload matching both entries of `gameC5.solution_data`. -/
def placementsC5 : List (Pos × PlacementVal) :=
  [("0,0", .obj (some 1)), ("1,1", .obj (some 2))]

/-- Placement payload whose value is not a JSON object, so
`placement.get('shapeId')` raises `AttributeError` inside the `try` block. -/
def placementsC9 : List (Pos × PlacementVal) := [("0,0", .nonObj)]

/-- Placement payload at a coordinate outside the solution, with its
`shapeId` member absent: `solution.get(position)` and
`placement.get('shapeId')` are both `None`, which compare equal. -/
def placementsC6 : List (Pos × PlacementVal) := [("5,5", .obj none)]

/-- Well-formed placement payload used as a witness input: one correct
placement, one wrong placement at a coordinate unknown to the solution. -/
def placementsC6w : List (Pos × PlacementVal) :=
  [("0,0", .obj (some 1)), ("9,9", .obj (some 3))]

/-- `PuzzleLevel` row (games/models.py): the fields read by the progression
engine.  `level_number` is a unique `PositiveIntegerField`. -/
structure PuzzleLevel where
  level_number : Nat
  puzzles_required : Nat
  is_active : Bool
deriving DecidableEq, Repr

/-- `UserLevelProgress` row.  `level` holds the `level_number` of the
foreign-keyed `PuzzleLevel` (which is unique per level, so it identifies
the row's level); `(user, level)` is `unique_together`. -/
structure UserLevelProgress where
  user : UserId
  level : Nat
  puzzles_completed : Nat
  is_completed : Bool
  completed_at : Option Nat
  total_score : Nat
deriving DecidableEq, Repr

/-- `LevelPuzzle` row: links a shape game slot to a level; `level` holds the
level's `level_number`. -/
structure LevelPuzzle where
  id : Nat
  level : Nat
deriving DecidableEq, Repr

/-- `UserPuzzleAttempt` row; `(user, level_puzzle)` is `unique_together`. -/
structure UserPuzzleAttempt where
  user : UserId
  level_puzzle : Nat
  is_completed : Bool
  score_earned : Nat
  completed_at : Option Nat
deriving DecidableEq, Repr

/-- `GameStatus` choices. -/
inductive GameStatus where
  | in_progress
  | completed
  | abandoned
deriving DecidableEq, Repr

/-- `ShapeGameAttempt` row.  The primary key is a UUID in the source; it is
modelled as a `Nat` drawn from the `DB.nextAttemptId` counter so that
freshly created attempts have ids distinct from all existing rows. -/
structure ShapeGameAttempt where
  id : Nat
  user : UserId
  shape_game : Nat
  current_state : List (Pos × PlacementVal)
  status : GameStatus
  start_time : Nat
  end_time : Option Nat
  score : Int
  accuracy : ℚ
  correct_placements : Nat
  incorrect_placements : Nat
  time_taken_seconds : Nat
deriving DecidableEq, Repr

/-- `Achievement` row (games/models.py): fields read by
`check_user_achievements`.  `requirement_type` is one of the `choices`
strings. -/
structure Achievement where
  id : Nat
  requirement_type : String
  requirement_value : Nat
  points_reward : Nat
  is_active : Bool
deriving DecidableEq, Repr

/-- `UserAchievement` row; `(user, achievement)` is `unique_together`. -/
structure UserAchievement where
  user : UserId
  achievement : Nat
deriving DecidableEq, Repr

/-- The authenticated `User` row fields the core reads:
`total_score` is an `IntegerField` on authentication.models.User. -/
structure UserRec where
  id : UserId
  total_score : Int
deriving DecidableEq, Repr

/-- The persistent store: one list per table.  `save()` writes back into the
list; `objects.get` / `filter` / `get_or_create` are `find?` / `filter` /
find-or-append. -/
structure DB where
  levels : List PuzzleLevel
  progress : List UserLevelProgress
  levelPuzzles : List LevelPuzzle
  upAttempts : List UserPuzzleAttempt
  shapeGames : List ShapeGame
  shapeAttempts : List ShapeGameAttempt
  achievements : List Achievement
  userAchievements : List UserAchievement
  users : List UserRec
  nextAttemptId : Nat
deriving DecidableEq, Repr

/-- `PuzzleLevel.is_unlocked_for_user(user)` (games/models.py).  Level 1 is
always unlocked; `previous_level <= 0` returns true (Python int arithmetic;
with `Nat` truncated subtraction the branch agrees for every
`level_number`); a missing previous `PuzzleLevel` row hits the
`DoesNotExist` handler, which returns true; otherwise the method asks
whether a completed progress row for (user, previous level) exists. -/
def is_unlocked_for_user (db : DB) (user : UserId) (lv : PuzzleLevel) : Bool :=
  if lv.level_number == 1 then true
  else if lv.level_number - 1 == 0 then true
  else
    match db.levels.find? (fun l => l.level_number == lv.level_number - 1) with
    | none => true
    | some prev =>
      db.progress.any (fun p =>
        p.user == user && p.level == prev.level_number && p.is_completed)

/-- Write back a mutated progress row: `save()` on the row identified by its
`(user, level)` key (unique_together). -/
def DB.updateProgress (db : DB) (u : UserId) (n : Nat)
    (f : UserLevelProgress → UserLevelProgress) : DB :=
  { db with progress := db.progress.map (fun p =>
      if p.user == u && p.level == n then f p else p) }

/-- `UserLevelProgress.objects.get_or_create(user=.., level=.., defaults=
{'puzzles_completed': 0, 'is_completed': False})`: create the (user, level)
progress row with zeroed defaults when absent. -/
def ensureProgressRow (db : DB) (u : UserId) (n : Nat) : DB :=
  if db.progress.any (fun p => p.user == u && p.level == n) then db
  else { db with progress := db.progress ++
    [{ user := u, level := n, puzzles_completed := 0, is_completed := false,
       completed_at := none, total_score := 0 }] }

/-- `UserLevelProgress.unlock_next_level` (games/models.py): look up the
next sequential level with `is_active=True`; on `DoesNotExist` do nothing;
otherwise `get_or_create` the (user, next level) progress row with zeroed
defaults. -/
def unlock_next_level (db : DB) (u : UserId) (n : Nat) : DB :=
  match db.levels.find? (fun l => l.level_number == n + 1 && l.is_active) with
  | none => db
  | some next => ensureProgressRow db u next.level_number

/-- `UserLevelProgress.check_completion` (games/models.py), acting on the
progress row identified by `(u, n)`.  The `none` branches model calling the
method when the row or its level does not exist, which cannot happen through
the Django ORM (the method runs on a fetched row and the level is a
foreign key). -/
def check_completion (db : DB) (u : UserId) (n : Nat) (now : Nat) : DB :=
  match db.progress.find? (fun p => p.user == u && p.level == n),
        db.levels.find? (fun l => l.level_number == n) with
  | some p, some lv =>
    if p.puzzles_completed ≥ lv.puzzles_required ∧ p.is_completed = false then
      unlock_next_level
        (db.updateProgress u n (fun q =>
          { q with is_completed := true, completed_at := some now })) u n
    else db
  | _, _ => db

/-- `user.total_score += d; user.save()`. -/
def bumpUserScore (users : List UserRec) (u : UserId) (d : Int) : List UserRec :=
  users.map (fun v => if v.id == u then { v with total_score := v.total_score + d } else v)

/-- `self.is_completed = True; self.score_earned = score; self.completed_at
= timezone.now(); self.save()` on the `(u, lp)` attempt row. -/
def markUPACompleted (db : DB) (u : UserId) (lp : Nat) (score : Nat) (now : Nat) : DB :=
  { db with upAttempts := db.upAttempts.map (fun b =>
      if b.user == u && b.level_puzzle == lp then
        { b with is_completed := true, score_earned := score, completed_at := some now }
      else b) }

/-- `level_progress.puzzles_completed += 1; level_progress.total_score +=
score; level_progress.save()`. -/
def bumpProgress (db : DB) (u : UserId) (n : Nat) (score : Nat) : DB :=
  db.updateProgress u n (fun p =>
    { p with puzzles_completed := p.puzzles_completed + 1,
             total_score := p.total_score + score })

/-- `UserPuzzleAttempt.complete_attempt(score)` (games/models.py) on the
attempt row identified by `(u, lp)`: guarded by `if not self.is_completed`;
marks the attempt, fetches-or-creates the level progress row, increments
`puzzles_completed`, adds the score, runs `check_completion`, and adds the
score to the user's total.  The `none` branches model absent rows that the
ORM's foreign keys guarantee to exist. -/
def complete_attempt (db : DB) (u : UserId) (lp : Nat) (score : Nat) (now : Nat) : DB :=
  match db.upAttempts.find? (fun a => a.user == u && a.level_puzzle == lp) with
  | none => db
  | some a =>
    if a.is_completed then db
    else
      let db1 := markUPACompleted db u lp score now
      match db1.levelPuzzles.find? (fun q => q.id == lp) with
      | none => db1
      | some lpz =>
        let db4 := check_completion
          (bumpProgress (ensureProgressRow db1 u lpz.level) u lpz.level score)
          u lpz.level now
        { db4 with users := bumpUserScore db4.users u (score : Int) }

/-- The three core progression operations quantified over by the invariant
claims. -/
inductive Op where
  | completeAttempt (u : UserId) (lp : Nat) (score : Nat) (now : Nat)
  | checkCompletion (u : UserId) (n : Nat) (now : Nat)
  | unlockNext (u : UserId) (n : Nat)
deriving DecidableEq, Repr

def applyOp (db : DB) : Op → DB
  | .completeAttempt u lp score now => complete_attempt db u lp score now
  | .checkCompletion u n now => check_completion db u n now
  | .unlockNext u n => unlock_next_level db u n

def runOps (db : DB) (ops : List Op) : DB := ops.foldl applyOp db

/-- The expression `models.timezone.now()` in games/level_models.py.  In
that module `models` is the module `django.db.models` (imported via
`from django.db import models`), which defines no attribute `timezone`
(the working import, used by games/models.py, is
`from django.utils import timezone`).  Evaluating the attribute access
therefore raises `AttributeError` instead of producing a timestamp. -/
def models_timezone_now : Except String Nat :=
  .error "AttributeError: module django.db.models has no attribute timezone"

/-- `UserLevelProgress.check_completion` from games/level_models.py: the
same guard and cascade as the games/models.py version, except that the
completion timestamp comes from `models.timezone.now()`.  The in-memory
assignment `self.is_completed = True` precedes the raising expression, but
`self.save()` is never reached, so no state change is persisted. -/
def LM_check_completion (db : DB) (u : UserId) (n : Nat) : Except String DB :=
  match db.progress.find? (fun p => p.user == u && p.level == n),
        db.levels.find? (fun l => l.level_number == n) with
  | some p, some lv =>
    if p.puzzles_completed ≥ lv.puzzles_required ∧ p.is_completed = false then
      match models_timezone_now with
      | .error e => .error e
      | .ok now =>
        .ok (unlock_next_level
          (db.updateProgress u n (fun q =>
            { q with is_completed := true, completed_at := some now })) u n)
    else .ok db
  | _, _ => .ok db

/-- `UserPuzzleAttempt.complete_attempt` from games/level_models.py: the
same body as the games/models.py version, but `self.completed_at =
models.timezone.now()` raises before `self.save()`, and the downstream
`check_completion` it would call is the level_models variant. -/
def LM_complete_attempt (db : DB) (u : UserId) (lp : Nat) (score : Nat) :
    Except String DB :=
  match db.upAttempts.find? (fun a => a.user == u && a.level_puzzle == lp) with
  | none => .ok db
  | some a =>
    if a.is_completed then .ok db
    else
      match models_timezone_now with
      | .error e => .error e
      | .ok now =>
        let db1 := markUPACompleted db u lp score now
        match db1.levelPuzzles.find? (fun q => q.id == lp) with
        | none => .ok db1
        | some lpz =>
          let db3 := bumpProgress (ensureProgressRow db1 u lpz.level) u lpz.level score
          match LM_check_completion db3 u lpz.level with
          | .error e => .error e
          | .ok db4 => .ok { db4 with users := bumpUserScore db4.users u (score : Int) }

/-- `UserLevelProgress.objects.filter(user=user, is_completed=True).count()`. -/
def completedLevelsCount (db : DB) (u : UserId) : Nat :=
  (db.progress.filter (fun p => p.user == u && p.is_completed)).length

/-- `user.shape_game_attempts.filter(status='completed').count()`. -/
def completedPuzzlesCount (db : DB) (u : UserId) : Nat :=
  (db.shapeAttempts.filter (fun a =>
    a.user == u && a.status == GameStatus.completed)).length

/-- `user.total_score` (0 when the user row is absent; `request.user`
always exists). -/
def userTotalScore (db : DB) (u : UserId) : Int :=
  ((db.users.find? (fun v => v.id == u)).map (fun v => v.total_score)).getD 0

/-- `UserAchievement.objects.filter(user=user, achievement=achievement).exists()`. -/
def hasAchievement (grants : List UserAchievement) (u : UserId) (aid : Nat) : Bool :=
  grants.any (fun ua => ua.user == u && ua.achievement == aid)

/-- `check_user_achievements(user)` (games/views.py): compute the three
aggregate metrics, collect the active achievements of each handled
requirement type whose threshold is met and that the user does not already
hold, then create the `UserAchievement` rows and add the point rewards to
the user's total score (`user.save()` runs once, only when something was
awarded).  Returns the updated store and the awarded list. -/
def check_user_achievements (db : DB) (u : UserId) : DB × List Achievement :=
  let completed_levels := completedLevelsCount db u
  let total_puzzles := completedPuzzlesCount db u
  let total_score := userTotalScore db u
  let level_achievements := db.achievements.filter (fun a =>
    a.requirement_type == "levels_completed" &&
      decide (a.requirement_value ≤ completed_levels) && a.is_active)
  let puzzle_achievements := db.achievements.filter (fun a =>
    a.requirement_type == "puzzles_solved" &&
      decide (a.requirement_value ≤ total_puzzles) && a.is_active)
  let score_achievements := db.achievements.filter (fun a =>
    a.requirement_type == "score_reached" &&
      decide ((a.requirement_value : Int) ≤ total_score) && a.is_active)
  let toAward :=
    level_achievements.filter (fun a => !hasAchievement db.userAchievements u a.id) ++
    puzzle_achievements.filter (fun a => !hasAchievement db.userAchievements u a.id) ++
    score_achievements.filter (fun a => !hasAchievement db.userAchievements u a.id)
  let db' : DB := { db with
    userAchievements := db.userAchievements ++
      toAward.map (fun a => { user := u, achievement := a.id }),
    users := if toAward.isEmpty then db.users
      else bumpUserScore db.users u
        ((toAward.map (fun a => (a.points_reward : Int))).sum) }
  (db', toAward)

/-- `request.data` of `api_save_shape_game_state`: `current_state` defaults
to `{}`, `score` to `0`; `status` is the optional `'completed'` marker. -/
structure SavePayload where
  current_state : List (Pos × PlacementVal)
  score : Int
  status : Option String
deriving DecidableEq, Repr

/-- The success `Response` body of `api_save_shape_game_state`. -/
structure SaveResponse where
  attempt_id : Nat
  score : Int
  accuracy : ℚ
deriving DecidableEq, Repr

/-- `api_save_shape_game_state(request, game_id)` (games/views.py).
`get_object_or_404(ShapeGame, id=game_id, is_active=True)` failing is the
`none` response (the view's catch-all turns it into an error response; no
state changes).  The attempt is obtained with
`get_or_create(user, shape_game, status=IN_PROGRESS)` — an already
completed attempt does NOT match, so a fresh attempt row is created.  The
state, score and naive placement counts are overwritten; when the payload
says `completed`, the attempt is finalized: validated, scored and stamped.
Finally `attempt.save()` writes the row back by primary key. -/
def api_save_shape_game_state (db : DB) (uid : UserId) (game_id : Nat)
    (payload : SavePayload) (now : Nat) : DB × Option SaveResponse :=
  match db.shapeGames.find? (fun g => g.id == game_id && g.is_active) with
  | none => (db, none)
  | some game =>
    let newAtt : ShapeGameAttempt :=
      { id := db.nextAttemptId, user := uid, shape_game := game_id,
        current_state := [], status := GameStatus.in_progress, start_time := now,
        end_time := none, score := 0, accuracy := 0, correct_placements := 0,
        incorrect_placements := 0, time_taken_seconds := 0 }
    let found := db.shapeAttempts.find? (fun a =>
      a.user == uid && a.shape_game == game_id && a.status == GameStatus.in_progress)
    let db1 : DB := match found with
      | some _ => db
      | none =>
        { db with
          shapeAttempts := db.shapeAttempts ++ [newAtt]
          nextAttemptId := db.nextAttemptId + 1 }
    let att := match found with
      | some a => a
      | none => newAtt
    let att1 :=
      { att with
        current_state := payload.current_state
        score := payload.score
        correct_placements := payload.current_state.length
        incorrect_placements := 0 }
    let att2 := if payload.status == some "completed" then
        let v := validate_shape_placement game payload.current_state
        { att1 with
          status := GameStatus.completed
          end_time := some now
          time_taken_seconds := now - att1.start_time
          accuracy := v.accuracy
          score := v.final_score
          correct_placements := v.correct_count
          incorrect_placements := v.incorrect_count }
      else att1
    let db2 : DB := { db1 with shapeAttempts := db1.shapeAttempts.map (fun b =>
      if b.id == att2.id then att2 else b) }
    (db2, some { attempt_id := att2.id, score := att2.score, accuracy := att2.accuracy })

/-- How one progress row may change across a core progression operation:
its key is stable, `puzzles_completed` never decreases, `is_completed`
never reverts, and it may flip to completed only when the requirement of
its level is met. -/
def RowStep (levels : List PuzzleLevel) (p q : UserLevelProgress) : Prop :=
  p.user = q.user ∧ p.level = q.level ∧
  p.puzzles_completed ≤ q.puzzles_completed ∧
  (p.is_completed = true → q.is_completed = true) ∧
  (p.is_completed = false → q.is_completed = true →
    ∃ lv ∈ levels, lv.level_number = p.level ∧
      lv.puzzles_required ≤ q.puzzles_completed)

/-- A store evolution that preserves the levels table and advances every
pre-existing progress row (found at the same position) by a `RowStep`. -/
def Evolves (db db' : DB) : Prop :=
  db'.levels = db.levels ∧
  ∀ i p, db.progress.get? i = some p →
    ∃ q, db'.progress.get? i = some q ∧ RowStep db.levels p q

/-- The `(user, level)` keys of a progress list. -/
def progressKeys (l : List UserLevelProgress) : List (UserId × Nat) :=
  l.map (fun p => (p.user, p.level))

/-- The `unique_together = ['user', 'level']` constraint of
`UserLevelProgress`. -/
def KeysNodup (db : DB) : Prop := (progressKeys db.progress).Nodup

/-- The primary-key discipline of `ShapeGameAttempt` rows in the store:
distinct ids, all below the fresh-id counter. -/
def AttemptIdsOk (db : DB) : Prop :=
  (db.shapeAttempts.map (fun a => a.id)).Nodup ∧
  ∀ a ∈ db.shapeAttempts, a.id < db.nextAttemptId

/-- A store with every table empty. -/
def emptyDB : DB :=
  { levels := [], progress := [], levelPuzzles := [], upAttempts := [],
    shapeGames := [], shapeAttempts := [], achievements := [],
    userAchievements := [], users := [], nextAttemptId := 0 }

def lvl1 : PuzzleLevel := { level_number := 1, puzzles_required := 1, is_active := true }

/-- Level 2 present but deactivated. -/
def lvl2i : PuzzleLevel := { level_number := 2, puzzles_required := 1, is_active := false }

def lvl2a : PuzzleLevel := { level_number := 2, puzzles_required := 1, is_active := true }

def lvl3 : PuzzleLevel := { level_number := 3, puzzles_required := 1, is_active := true }

/-- A store containing level 3 but no level 2: reachable, since the admin
level-creation view accepts an arbitrary `level_number`. -/
def dbC2 : DB := { emptyDB with levels := [lvl3] }

/-- Progress row for user 7 on level 1 meeting the requirement but not yet
marked completed. -/
def rowC3 : UserLevelProgress :=
  { user := 7, level := 1, puzzles_completed := 1, is_completed := false,
    completed_at := none, total_score := 0 }

/-- Level 1 met its requirement; the next sequential level exists but is
inactive. -/
def dbC3 : DB := { emptyDB with levels := [lvl1, lvl2i], progress := [rowC3] }

/-- Same, but the next sequential level is active. -/
def dbC3b : DB := { emptyDB with levels := [lvl1, lvl2a], progress := [rowC3] }

/-- Progress row for user 7 on level 1 already completed. -/
def rowDone : UserLevelProgress :=
  { user := 7, level := 1, puzzles_completed := 1, is_completed := true,
    completed_at := some 3, total_score := 0 }

def dbC3c : DB := { emptyDB with levels := [lvl1], progress := [rowDone] }

/-- A not-yet-completed `UserPuzzleAttempt`, used against the level_models
completion path. -/
def upaC10 : UserPuzzleAttempt :=
  { user := 7, level_puzzle := 10, is_completed := false, score_earned := 0,
    completed_at := none }

def dbC10 : DB :=
  { dbC3 with
    upAttempts := [upaC10]
    levelPuzzles := [{ id := 10, level := 1 }]
    users := [{ id := 7, total_score := 0 }] }

/-- Game for the duplicate-finalize scenario: one blank, one solution entry. -/
def gameC1 : ShapeGame :=
  { id := 0, is_active := true, grid_template := { grid_data := [["?"]] },
    solution_data := [("0,0", 1)], points_per_correct := 10,
    penalty_per_wrong := 5 }

def dbC1 : DB :=
  { emptyDB with shapeGames := [gameC1], users := [{ id := 7, total_score := 0 }] }

/-- First finalize request: the correct placement, marked completed. -/
def payloadC1a : SavePayload :=
  { current_state := [("0,0", PlacementVal.obj (some 1))], score := 0,
    status := some "completed" }

/-- Duplicate finalize request with a different (empty) payload. -/
def payloadC1b : SavePayload :=
  { current_state := [], score := 0, status := some "completed" }

/-- Store after the first finalize. -/
def dbC1a : DB := (api_save_shape_game_state dbC1 7 0 payloadC1a 100).1

/-- Store after the duplicate finalize. -/
def dbC1b : DB := (api_save_shape_game_state dbC1a 7 0 payloadC1b 200).1

/-- A level-count achievement with threshold 1. -/
def achLevels : Achievement :=
  { id := 1, requirement_type := "levels_completed", requirement_value := 1,
    points_reward := 50, is_active := true }

/-- User 7 has one completed level, qualifying for `achLevels`. -/
def dbC8 : DB :=
  { emptyDB with
    achievements := [achLevels]
    progress := [rowDone]
    users := [{ id := 7, total_score := 0 }] }

/-- An already-completed `UserPuzzleAttempt`. -/
def upaDone : UserPuzzleAttempt :=
  { user := 7, level_puzzle := 10, is_completed := true, score_earned := 50,
    completed_at := some 4 }

/-- Store whose (7, 10) puzzle attempt is already completed. -/
def dbC3c2 : DB :=
  { dbC3c with
    upAttempts := [upaDone]
    levelPuzzles := [{ id := 10, level := 1 }]
    users := [{ id := 7, total_score := 50 }] }

end GeoSudoku

/-! ## Theorems -/

namespace GeoSudoku

theorem round_monotone {x y : ℚ} (h : x ≤ y) : round x ≤ round y := by
  rw [round_eq, round_eq]
  exact Int.floor_mono (by linarith)

theorem round2_nonneg {q : ℚ} (h : 0 ≤ q) : 0 ≤ round2 q := by
  unfold round2
  have h1 : (0 : ℤ) ≤ round (q * 100) := by
    have := round_monotone (mul_nonneg h (by norm_num : (0:ℚ) ≤ 100))
    simpa using this
  positivity

theorem round2_le_hundred {q : ℚ} (h : q ≤ 100) : round2 q ≤ 100 := by
  unfold round2
  have h1 : round (q * 100) ≤ round ((10000 : ℚ)) := by
    apply round_monotone
    nlinarith
  have h2 : round ((10000 : ℚ)) = 10000 := by
    simp
  rw [h2] at h1
  rw [div_le_iff₀ (by norm_num : (0:ℚ) < 100)]
  calc ((round (q * 100) : ℤ) : ℚ) ≤ ((10000 : ℤ) : ℚ) := by exact_mod_cast h1
    _ = 100 * 100 := by norm_num

theorem countP_split (p : α → Bool) (l : List α) :
    l.countP p + l.countP (fun a => !p a) = l.length := by
  induction l with
  | nil => simp
  | cons a l ih =>
    simp only [List.countP_cons, List.length_cons]
    cases h : p a <;> simp [h] <;> omega

theorem scanPlacements_ok (solution : List (Pos × ShapeId))
    (ps : List (Pos × PlacementVal)) (h : ∀ e ∈ ps, e.2 ≠ PlacementVal.nonObj)
    (cc ic : Nat) (det : List ValidationDetail) :
    ∃ det', scanPlacements solution cc ic det ps =
      .ok (cc + ps.countP (fun e => solution.lookup e.1 == placedOpt e.2),
           ic + ps.countP (fun e => !(solution.lookup e.1 == placedOpt e.2)),
           det') := by
  induction ps generalizing cc ic det with
  | nil => exact ⟨det, by simp [scanPlacements]⟩
  | cons e rest ih =>
    obtain ⟨pos, pv⟩ := e
    have hne := h (pos, pv) (by simp)
    match pv with
    | .nonObj => exact absurd rfl hne
    | .obj placed =>
      have hrest : ∀ e ∈ rest, e.2 ≠ PlacementVal.nonObj := by
        intro e he
        exact h e (List.mem_cons_of_mem _ he)
      simp only [scanPlacements, PlacementVal.getShapeId]
      by_cases hc : solution.lookup pos = placed
      · obtain ⟨det', hdet⟩ := ih hrest (cc + 1) ic
          (det ++ [{ pos := pos, correct := decide (solution.lookup pos = placed),
                     expected := solution.lookup pos, placed := placed }])
        refine ⟨det', ?_⟩
        rw [if_pos hc, hdet]
        have hb : (solution.lookup pos == placed) = true := beq_iff_eq.mpr hc
        simp only [List.countP_cons, placedOpt, hb, Except.ok.injEq, Prod.mk.injEq]
        refine ⟨?_, ?_, trivial⟩ <;> simp <;> omega
      · obtain ⟨det', hdet⟩ := ih hrest cc (ic + 1)
          (det ++ [{ pos := pos, correct := decide (solution.lookup pos = placed),
                     expected := solution.lookup pos, placed := placed }])
        refine ⟨det', ?_⟩
        rw [if_neg hc, hdet]
        have hb : (solution.lookup pos == placed) = false := by
          simpa using hc
        simp only [List.countP_cons, placedOpt, hb, Except.ok.injEq, Prod.mk.injEq]
        refine ⟨?_, ?_, trivial⟩ <;> simp <;> omega

end GeoSudoku

namespace GeoSudoku

theorem validate_shape_placement_fields (g : ShapeGame)
    (ps : List (Pos × PlacementVal)) :
    (validate_shape_placement g ps).final_score =
      max 0 (((validate_shape_placement g ps).correct_count : Int) * g.points_per_correct -
             ((validate_shape_placement g ps).incorrect_count : Int) * g.penalty_per_wrong) ∧
    (validate_shape_placement g ps).accuracy =
      (if 0 < (validate_shape_placement g ps).total_questions then
        round2 (((validate_shape_placement g ps).correct_count : ℚ) /
          ((validate_shape_placement g ps).total_questions : ℚ) * 100)
       else 0) := by
  unfold validate_shape_placement validateInner
  cases hs : scanPlacements g.solution_data 0 0 [] ps with
  | error e => simp [errorResult]
  | ok x =>
    obtain ⟨cc, ic, det⟩ := x
    by_cases ht : 0 < countQuestions g.grid_template.grid_data
    · simp only [ht, gt_iff_lt, if_pos ht]
      simp
    · simp only [ht, gt_iff_lt, if_neg ht]
      simp [round2]

/-- C4: for every solution mapping and candidate placement mapping, the
validator's score equals
`max(0, correct_count * points_per_correct - incorrect_count * penalty_per_wrong)`,
and in particular is nonnegative on all inputs, even when every placement is
incorrect. -/
theorem c4_score_formula (g : ShapeGame) (ps : List (Pos × PlacementVal)) :
    (validate_shape_placement g ps).final_score =
      max 0 (((validate_shape_placement g ps).correct_count : Int) * g.points_per_correct -
             ((validate_shape_placement g ps).incorrect_count : Int) * g.penalty_per_wrong) ∧
    0 ≤ (validate_shape_placement g ps).final_score := by
  refine ⟨(validate_shape_placement_fields g ps).1, ?_⟩
  rw [(validate_shape_placement_fields g ps).1]
  exact le_max_left 0 _

/-- C5 counterexample: the claim says accuracy always lies in [0, 100], but
with a 1×1 grid holding one question cell and a solution object carrying an
extra entry at a non-blank coordinate, placing both entries correctly gives
`correct_count = 2` against `total_questions = 1`, so the returned accuracy
is 200. -/
theorem c5_counterexample :
    (validate_shape_placement gameC5 placementsC5).accuracy = 200 ∧
    ¬ ((validate_shape_placement gameC5 placementsC5).accuracy ≤ 100) := by
  have hf := (validate_shape_placement_fields gameC5 placementsC5).2
  have hcc : (validate_shape_placement gameC5 placementsC5).correct_count = 2 := by decide
  have htq : (validate_shape_placement gameC5 placementsC5).total_questions = 1 := by decide
  rw [hcc, htq, if_pos (by norm_num : (0:ℕ) < 1)] at hf
  have h200 : round2 (((2:ℕ) : ℚ) / ((1:ℕ) : ℚ) * 100) = 200 := by
    norm_num [round2]
  rw [h200] at hf
  exact ⟨hf, by rw [hf]; norm_num⟩

/-- C5 (amended): the validator's accuracy equals
`round2(correct_count / total_questions * 100)` (and `0` when
`total_questions = 0`), is always nonnegative, and is at most 100 whenever
`correct_count ≤ total_questions`; it can exceed 100 when placements match
solution entries at coordinates that are not question cells of the grid. -/
theorem c5_accuracy_bounds (g : ShapeGame) (ps : List (Pos × PlacementVal)) :
    (validate_shape_placement g ps).accuracy =
      (if 0 < (validate_shape_placement g ps).total_questions then
        round2 (((validate_shape_placement g ps).correct_count : ℚ) /
          ((validate_shape_placement g ps).total_questions : ℚ) * 100)
       else 0) ∧
    0 ≤ (validate_shape_placement g ps).accuracy ∧
    ((validate_shape_placement g ps).correct_count ≤
        (validate_shape_placement g ps).total_questions →
      (validate_shape_placement g ps).accuracy ≤ 100) := by
  obtain ⟨-, hacc⟩ := validate_shape_placement_fields g ps
  refine ⟨hacc, ?_, ?_⟩
  · rw [hacc]
    split
    · apply round2_nonneg
      positivity
    · exact le_refl 0
  · intro hle
    rw [hacc]
    split
    · rename_i h
      apply round2_le_hundred
      have htq : (0:ℚ) < ((validate_shape_placement g ps).total_questions : ℚ) := by
        exact_mod_cast h
      rw [div_mul_eq_mul_div, div_le_iff₀ htq]
      have hc : ((validate_shape_placement g ps).correct_count : ℚ) ≤
          ((validate_shape_placement g ps).total_questions : ℚ) := by
        exact_mod_cast hle
      nlinarith
    · norm_num

theorem c5_accuracy_bounds_witness :
    (validate_shape_placement gameC5 placementsC6w).correct_count ≤
      (validate_shape_placement gameC5 placementsC6w).total_questions ∧
    (validate_shape_placement gameC5 placementsC6w).accuracy ≤ 100 :=
  ⟨by decide, (c5_accuracy_bounds gameC5 placementsC6w).2.2 (by decide)⟩

/-- C6: for every placement mapping whose values are genuine shape ids, each
placed coordinate is counted in exactly one of the two counters
(`correct_count + incorrect_count` equals the number of placed coordinates),
`incorrect_count` counts exactly the placements whose placed id differs from
the solution's entry, and every placement at a coordinate that is not a key
of the solution mapping is counted in `incorrect_count`, never dropped. -/
theorem c6_strictness (g : ShapeGame) (ps : List (Pos × PlacementVal))
    (h : ∀ e ∈ ps, ∃ sid, e.2 = PlacementVal.obj (some sid)) :
    (validate_shape_placement g ps).correct_count +
      (validate_shape_placement g ps).incorrect_count = ps.length ∧
    (validate_shape_placement g ps).incorrect_count =
      ps.countP (fun e => !(g.solution_data.lookup e.1 == placedOpt e.2)) ∧
    ps.countP (fun e => (g.solution_data.lookup e.1).isNone) ≤
      (validate_shape_placement g ps).incorrect_count := by
  have hne : ∀ e ∈ ps, e.2 ≠ PlacementVal.nonObj := by
    intro e he hcon
    obtain ⟨sid, hsid⟩ := h e he
    rw [hcon] at hsid
    exact PlacementVal.noConfusion hsid
  obtain ⟨det', hscan⟩ := scanPlacements_ok g.solution_data ps hne 0 0 []
  unfold validate_shape_placement validateInner
  rw [hscan]
  refine ⟨?_, ?_, ?_⟩
  · simpa using countP_split (fun e => g.solution_data.lookup e.1 == placedOpt e.2) ps
  · simp
  · simp only [Nat.zero_add]
    apply List.countP_mono_left
    intro e he hnone
    obtain ⟨sid, hsid⟩ := h e he
    have hlook : g.solution_data.lookup e.1 = none := by
      cases hcase : g.solution_data.lookup e.1 with
      | none => rfl
      | some v => rw [hcase] at hnone; exact absurd hnone (by simp)
    simp [placedOpt, hsid, hlook]

end GeoSudoku

namespace GeoSudoku

theorem c6_strictness_witness :
    (∀ e ∈ placementsC6w, ∃ sid, e.2 = PlacementVal.obj (some sid)) ∧
    ((validate_shape_placement gameC5 placementsC6w).correct_count +
      (validate_shape_placement gameC5 placementsC6w).incorrect_count =
        placementsC6w.length ∧
    (validate_shape_placement gameC5 placementsC6w).incorrect_count =
      placementsC6w.countP
        (fun e => !(gameC5.solution_data.lookup e.1 == placedOpt e.2)) ∧
    placementsC6w.countP (fun e => (gameC5.solution_data.lookup e.1).isNone) ≤
      (validate_shape_placement gameC5 placementsC6w).incorrect_count) := by
  have h : ∀ e ∈ placementsC6w, ∃ sid, e.2 = PlacementVal.obj (some sid) := by
    intro e he
    simp only [placementsC6w, List.mem_cons, List.not_mem_nil, or_false] at he
    rcases he with rfl | rfl
    · exact ⟨1, rfl⟩
    · exact ⟨3, rfl⟩
  exact ⟨h, c6_strictness gameC5 placementsC6w h⟩

/-- C6 side note: a placement at a coordinate unknown to the solution whose
`shapeId` member is absent or null is counted as CORRECT (both
`solution.get(position)` and `placement.get('shapeId')` are `None`, which
compare equal); this is why the main C6 theorem restricts placement values
to genuine shape ids. -/
theorem c6_null_shape_id_note :
    (validate_shape_placement gameC5 placementsC6).correct_count = 1 ∧
    (validate_shape_placement gameC5 placementsC6).incorrect_count = 0 := by
  constructor
  · decide
  · decide

/-- C9 counterexample: at a placement payload holding a non-object value,
the internal scan of `validate_shape_placement` fails, yet the function does
not propagate the failure: the catch-all `except` returns the defaulted
zeroed result dict carrying the message. -/
theorem c9_counterexample :
    validateInner gameC5 placementsC9 =
      .error "AttributeError: placement value has no attribute get" ∧
    validate_shape_placement gameC5 placementsC9 =
      errorResult "AttributeError: placement value has no attribute get" ∧
    (validate_shape_placement gameC5 placementsC9).final_score = 0 ∧
    (validate_shape_placement gameC5 placementsC9).correct_count = 0 :=
  ⟨rfl, rfl, rfl, rfl⟩

/-- C9 (amended): whenever an internal step of the placement validation
fails, `validate_shape_placement` catches the failure and returns the
defaulted (zeroed) result dict with the error message, instead of
propagating the failure to the caller. -/
theorem c9_catch_all (g : ShapeGame) (ps : List (Pos × PlacementVal))
    (e : String) (h : validateInner g ps = .error e) :
    validate_shape_placement g ps = errorResult e := by
  unfold validate_shape_placement
  rw [h]

theorem c9_catch_all_witness :
    validate_shape_placement gameC5 placementsC9 =
      errorResult "AttributeError: placement value has no attribute get" :=
  c9_catch_all gameC5 placementsC9 _ rfl

end GeoSudoku

namespace GeoSudoku

theorem rowStep_refl (levels : List PuzzleLevel) (p : UserLevelProgress) :
    RowStep levels p p := by
  refine ⟨rfl, rfl, le_refl _, fun h => h, ?_⟩
  intro h1 h2
  rw [h1] at h2
  exact absurd h2 (by simp)

theorem rowStep_trans (levels : List PuzzleLevel) (p q r : UserLevelProgress)
    (h1 : RowStep levels p q) (h2 : RowStep levels q r) : RowStep levels p r := by
  obtain ⟨hu1, hl1, hp1, hc1, hf1⟩ := h1
  obtain ⟨hu2, hl2, hp2, hc2, hf2⟩ := h2
  refine ⟨hu1.trans hu2, hl1.trans hl2, hp1.trans hp2, fun h => hc2 (hc1 h), ?_⟩
  intro hf ht
  cases hq : q.is_completed with
  | false =>
    obtain ⟨lv, hmem, hnum, hreq⟩ := hf2 hq ht
    exact ⟨lv, hmem, by rw [hnum, ← hl1], hreq⟩
  | true =>
    obtain ⟨lv, hmem, hnum, hreq⟩ := hf1 hf hq
    exact ⟨lv, hmem, hnum, hreq.trans hp2⟩

theorem evolves_refl (db : DB) : Evolves db db :=
  ⟨rfl, fun _ p hp => ⟨p, hp, rowStep_refl _ _⟩⟩

theorem evolves_trans {a b c : DB} (h1 : Evolves a b) (h2 : Evolves b c) :
    Evolves a c := by
  obtain ⟨hl1, hr1⟩ := h1
  obtain ⟨hl2, hr2⟩ := h2
  refine ⟨hl2.trans hl1, ?_⟩
  intro i p hp
  obtain ⟨q, hq, hstep1⟩ := hr1 i p hp
  obtain ⟨r, hr, hstep2⟩ := hr2 i q hq
  rw [hl1] at hstep2
  exact ⟨r, hr, rowStep_trans _ _ _ _ hstep1 hstep2⟩

theorem evolves_of_progress_eq {db db' : DB} (hp : db'.progress = db.progress)
    (hl : db'.levels = db.levels) : Evolves db db' := by
  refine ⟨hl, ?_⟩
  intro i p hi
  rw [hp]
  exact ⟨p, hi, rowStep_refl _ _⟩

theorem evolves_map (db : DB) (g : UserLevelProgress → UserLevelProgress)
    (hg : ∀ p ∈ db.progress, RowStep db.levels p (g p)) :
    Evolves db { db with progress := db.progress.map g } := by
  refine ⟨rfl, ?_⟩
  intro i p hp
  refine ⟨g p, ?_, hg p (List.get?_mem hp)⟩
  simp only [List.get?_map, hp, Option.map_some']

theorem evolves_append (db : DB) (t : List UserLevelProgress) :
    Evolves db { db with progress := db.progress ++ t } := by
  refine ⟨rfl, ?_⟩
  intro i p hp
  have hi : i < db.progress.length := by
    by_contra hcon
    rw [List.get?_eq_none.mpr (le_of_not_lt hcon)] at hp
    exact Option.noConfusion hp
  refine ⟨p, ?_, rowStep_refl _ _⟩
  simp only [List.get?_append hi, hp]

theorem progressKeys_map_of_keep (l : List UserLevelProgress)
    (g : UserLevelProgress → UserLevelProgress)
    (hg : ∀ p, (g p).user = p.user ∧ (g p).level = p.level) :
    progressKeys (l.map g) = progressKeys l := by
  unfold progressKeys
  rw [List.map_map]
  apply List.map_congr_left
  intro p _
  simp only [Function.comp_apply, (hg p).1, (hg p).2]

theorem keysNodup_append_of_not_mem (l : List UserLevelProgress)
    (r : UserLevelProgress) (hnd : (progressKeys l).Nodup)
    (hnm : ∀ p ∈ l, ¬ (p.user = r.user ∧ p.level = r.level)) :
    (progressKeys (l ++ [r])).Nodup := by
  unfold progressKeys at *
  rw [List.map_append]
  apply List.Nodup.append hnd (List.nodup_singleton _)
  intro k hk1 hk2
  simp only [List.map_cons, List.map_nil, List.mem_singleton] at hk2
  obtain ⟨p, hp, hkey⟩ := List.mem_map.mp hk1
  subst hk2
  have := hnm p hp
  apply this
  constructor
  · exact congrArg Prod.fst hkey
  · exact congrArg Prod.snd hkey

end GeoSudoku

namespace GeoSudoku

theorem ensureProgressRow_evolves (db : DB) (u n : Nat) (hnd : KeysNodup db) :
    Evolves db (ensureProgressRow db u n) ∧ KeysNodup (ensureProgressRow db u n) := by
  unfold ensureProgressRow
  cases hany : db.progress.any (fun p => p.user == u && p.level == n) with
  | true =>
    simp only [hany, if_true]
    exact ⟨evolves_refl db, hnd⟩
  | false =>
    simp only [hany, Bool.false_eq_true, if_false]
    refine ⟨evolves_append db _, ?_⟩
    unfold KeysNodup
    apply keysNodup_append_of_not_mem _ _ hnd
    intro p hp hcon
    have := List.any_eq_false.mp hany p hp
    apply this
    simp only [Bool.and_eq_true, beq_iff_eq]
    exact ⟨hcon.1, hcon.2⟩

theorem unlock_next_level_evolves (db : DB) (u n : Nat) (hnd : KeysNodup db) :
    Evolves db (unlock_next_level db u n) ∧ KeysNodup (unlock_next_level db u n) := by
  unfold unlock_next_level
  cases hfind : db.levels.find? (fun l => l.level_number == n + 1 && l.is_active) with
  | none => exact ⟨evolves_refl db, hnd⟩
  | some next => exact ensureProgressRow_evolves db u next.level_number hnd

theorem check_completion_evolves (db : DB) (u n now : Nat) (hnd : KeysNodup db) :
    Evolves db (check_completion db u n now) ∧
      KeysNodup (check_completion db u n now) := by
  unfold check_completion
  cases hp : db.progress.find? (fun q => q.user == u && q.level == n) with
  | none => exact ⟨evolves_refl db, hnd⟩
  | some p =>
    cases hl : db.levels.find? (fun l => l.level_number == n) with
    | none => exact ⟨evolves_refl db, hnd⟩
    | some lv =>
      dsimp only
      by_cases hg : p.puzzles_completed ≥ lv.puzzles_required ∧ p.is_completed = false
      · rw [if_pos hg]
        have hpmem : p ∈ db.progress := List.mem_of_find?_eq_some hp
        have hppred := List.find?_some hp
        have hlmem : lv ∈ db.levels := List.mem_of_find?_eq_some hl
        have hlpred := List.find?_some hl
        have hlnum : lv.level_number = n := by
          simpa using hlpred
        have hpkey : p.user = u ∧ p.level = n := by
          simpa using hppred
        have hkeep : ∀ q : UserLevelProgress,
            (if q.user == u && q.level == n then
              { q with is_completed := true, completed_at := some now } else q).user = q.user ∧
            (if q.user == u && q.level == n then
              { q with is_completed := true, completed_at := some now } else q).level = q.level := by
          intro q
          by_cases hk : (q.user == u && q.level == n) = true
          · simp [hk]
          · simp [hk]
        have h1 : Evolves db (db.updateProgress u n (fun q =>
            { q with is_completed := true, completed_at := some now })) := by
          unfold DB.updateProgress
          apply evolves_map
          intro q hq
          by_cases hk : (q.user == u && q.level == n) = true
          · have hkey : q.user = u ∧ q.level = n := by
              simpa using hk
            have hqp : q = p := by
              apply List.inj_on_of_nodup_map hnd hq hpmem
              simp [hkey.1, hkey.2, hpkey.1, hpkey.2]
            simp only [hk, if_true]
            refine ⟨rfl, rfl, le_refl _, fun _ => rfl, ?_⟩
            intro _ _
            refine ⟨lv, hlmem, ?_, ?_⟩
            · rw [hlnum, hkey.2]
            · simpa [hqp] using hg.1
          · simp only [hk, if_false]
            exact rowStep_refl _ _
        have h2 : KeysNodup (db.updateProgress u n (fun q =>
            { q with is_completed := true, completed_at := some now })) := by
          unfold KeysNodup DB.updateProgress
          rw [progressKeys_map_of_keep _ _ hkeep]
          exact hnd
        obtain ⟨h3, h4⟩ := unlock_next_level_evolves
          (db.updateProgress u n (fun q =>
            { q with is_completed := true, completed_at := some now })) u n h2
        exact ⟨evolves_trans h1 h3, h4⟩
      · rw [if_neg hg]
        exact ⟨evolves_refl db, hnd⟩

end GeoSudoku

namespace GeoSudoku

theorem markUPACompleted_evolves (db : DB) (u lp score now : Nat)
    (hnd : KeysNodup db) :
    Evolves db (markUPACompleted db u lp score now) ∧
      KeysNodup (markUPACompleted db u lp score now) :=
  ⟨evolves_of_progress_eq rfl rfl, hnd⟩

theorem bumpProgress_evolves (db : DB) (u n score : Nat) (hnd : KeysNodup db) :
    Evolves db (bumpProgress db u n score) ∧ KeysNodup (bumpProgress db u n score) := by
  unfold bumpProgress DB.updateProgress
  constructor
  · apply evolves_map
    intro q _
    by_cases hk : (q.user == u && q.level == n) = true
    · simp only [hk, if_true]
      refine ⟨rfl, rfl, Nat.le_succ _, fun h => h, ?_⟩
      intro h1 h2
      have h3 : q.is_completed = true := h2
      rw [h1] at h3
      exact Bool.noConfusion h3
    · simp only [hk, if_false]
      exact rowStep_refl _ _
  · unfold KeysNodup
    rw [progressKeys_map_of_keep]
    · exact hnd
    · intro p
      by_cases hk : (p.user == u && p.level == n) = true
      · simp [hk]
      · simp [hk]

theorem complete_attempt_evolves (db : DB) (u lp score now : Nat)
    (hnd : KeysNodup db) :
    Evolves db (complete_attempt db u lp score now) ∧
      KeysNodup (complete_attempt db u lp score now) := by
  unfold complete_attempt
  cases hf : db.upAttempts.find? (fun a => a.user == u && a.level_puzzle == lp) with
  | none => exact ⟨evolves_refl db, hnd⟩
  | some a =>
    cases hc : a.is_completed with
    | true =>
      simp only [hc, if_true]
      exact ⟨evolves_refl db, hnd⟩
    | false =>
      simp only [hc, Bool.false_eq_true, if_false]
      obtain ⟨e1, k1⟩ := markUPACompleted_evolves db u lp score now hnd
      cases hlp : (markUPACompleted db u lp score now).levelPuzzles.find?
          (fun q => q.id == lp) with
      | none => exact ⟨e1, k1⟩
      | some lpz =>
        obtain ⟨e2, k2⟩ := ensureProgressRow_evolves
          (markUPACompleted db u lp score now) u lpz.level k1
        obtain ⟨e3, k3⟩ := bumpProgress_evolves
          (ensureProgressRow (markUPACompleted db u lp score now) u lpz.level)
          u lpz.level score k2
        obtain ⟨e4, k4⟩ := check_completion_evolves
          (bumpProgress (ensureProgressRow (markUPACompleted db u lp score now)
            u lpz.level) u lpz.level score) u lpz.level now k3
        refine ⟨?_, k4⟩
        apply evolves_trans (evolves_trans (evolves_trans (evolves_trans e1 e2) e3) e4)
        exact evolves_of_progress_eq rfl rfl

theorem applyOp_evolves (db : DB) (op : Op) (hnd : KeysNodup db) :
    Evolves db (applyOp db op) ∧ KeysNodup (applyOp db op) := by
  cases op with
  | completeAttempt u lp score now => exact complete_attempt_evolves db u lp score now hnd
  | checkCompletion u n now => exact check_completion_evolves db u n now hnd
  | unlockNext u n => exact unlock_next_level_evolves db u n hnd

theorem runOps_evolves (db : DB) (ops : List Op) (hnd : KeysNodup db) :
    Evolves db (runOps db ops) ∧ KeysNodup (runOps db ops) := by
  induction ops generalizing db with
  | nil => exact ⟨evolves_refl db, hnd⟩
  | cons op rest ih =>
    obtain ⟨e1, k1⟩ := applyOp_evolves db op hnd
    obtain ⟨e2, k2⟩ := ih (applyOp db op) k1
    exact ⟨evolves_trans e1 e2, k2⟩

/-- C7: across every sequence of the core operations (`complete_attempt`,
`check_completion`, `unlock_next_level`), under the `(user, level)`
uniqueness constraint on progress rows, `puzzles_completed` of every
progress row never decreases, `is_completed` never reverts from true to
false, and a row flips to completed only when its `puzzles_completed` has
reached its level's `puzzles_required`. -/
theorem c7_progress_invariants (db : DB) (ops : List Op) (hnd : KeysNodup db)
    (i : Nat) (p : UserLevelProgress) (hp : db.progress.get? i = some p) :
    ∃ q, (runOps db ops).progress.get? i = some q ∧
      p.puzzles_completed ≤ q.puzzles_completed ∧
      (p.is_completed = true → q.is_completed = true) ∧
      (p.is_completed = false → q.is_completed = true →
        ∃ lv ∈ db.levels, lv.level_number = p.level ∧
          lv.puzzles_required ≤ q.puzzles_completed) := by
  obtain ⟨-, hr⟩ := (runOps_evolves db ops hnd).1
  obtain ⟨q, hq, hstep⟩ := hr i p hp
  exact ⟨q, hq, hstep.2.2.1, hstep.2.2.2.1, hstep.2.2.2.2⟩

theorem c7_progress_invariants_witness :
    KeysNodup dbC3 ∧ dbC3.progress.get? 0 = some rowC3 ∧
    (∃ q, (runOps dbC3 [Op.checkCompletion 7 1 5]).progress.get? 0 = some q ∧
      rowC3.puzzles_completed ≤ q.puzzles_completed ∧
      (rowC3.is_completed = true → q.is_completed = true) ∧
      (rowC3.is_completed = false → q.is_completed = true →
        ∃ lv ∈ dbC3.levels, lv.level_number = rowC3.level ∧
          lv.puzzles_required ≤ q.puzzles_completed)) := by
  have hnd : KeysNodup dbC3 := by
    unfold KeysNodup progressKeys
    decide
  exact ⟨hnd, rfl, c7_progress_invariants dbC3 [Op.checkCompletion 7 1 5] hnd 0 rowC3 rfl⟩

end GeoSudoku

namespace GeoSudoku

/-- C2 counterexample: in a store containing level 3 but no level 2 (the
admin level-creation view accepts arbitrary level numbers), the
`DoesNotExist` handler makes `is_unlocked_for_user` return true although no
completed LevelProgress row for (user, level 2) exists, refuting the
claimed equivalence. -/
theorem c2_counterexample :
    ¬ (is_unlocked_for_user dbC2 7 lvl3 = true ↔
        ∃ pr ∈ dbC2.progress, pr.user = 7 ∧ pr.level = 2 ∧
          pr.is_completed = true) := by
  decide

/-- C2 (amended): level 1 is always unlocked; for level N with N > 1,
`is_unlocked_for_user` returns true iff either no `PuzzleLevel` row with
`level_number = N - 1` exists (the `DoesNotExist` branch), or a
LevelProgress row for (user, N-1) exists with `is_completed = true`. -/
theorem c2_unlock_rule :
    (∀ (db : DB) (u : UserId) (lv : PuzzleLevel), lv.level_number = 1 →
      is_unlocked_for_user db u lv = true) ∧
    (∀ (db : DB) (u : UserId) (lv : PuzzleLevel), 1 < lv.level_number →
      (is_unlocked_for_user db u lv = true ↔
        (db.levels.find? (fun l => l.level_number == lv.level_number - 1) = none ∨
         ∃ pr ∈ db.progress, pr.user = u ∧ pr.level = lv.level_number - 1 ∧
           pr.is_completed = true))) := by
  constructor
  · intro db u lv h
    unfold is_unlocked_for_user
    simp [h]
  · intro db u lv h
    unfold is_unlocked_for_user
    have h1 : (lv.level_number == 1) = false := by
      simp only [beq_eq_false_iff_ne, ne_eq]
      omega
    have h2 : (lv.level_number - 1 == 0) = false := by
      simp only [beq_eq_false_iff_ne, ne_eq]
      omega
    simp only [h1, h2, Bool.false_eq_true, if_false]
    cases hf : db.levels.find? (fun l => l.level_number == lv.level_number - 1) with
    | none => simp
    | some prev =>
      have hnum : prev.level_number = lv.level_number - 1 := by
        simpa using List.find?_some hf
      rw [List.any_eq_true]
      constructor
      · rintro ⟨pr, hpr, hcond⟩
        right
        simp only [Bool.and_eq_true, beq_iff_eq] at hcond
        exact ⟨pr, hpr, hcond.1.1, hnum ▸ hcond.1.2, hcond.2⟩
      · rintro (hnone | ⟨pr, hpr, hu, hl, hc⟩)
        · exact Option.noConfusion hnone
        · exact ⟨pr, hpr, by simp [hu, hl, hnum, hc]⟩

theorem c2_unlock_rule_witness :
    is_unlocked_for_user dbC2 7 lvl1 = true ∧
    (is_unlocked_for_user dbC2 7 lvl3 = true ↔
      (dbC2.levels.find? (fun l => l.level_number == lvl3.level_number - 1) = none ∨
       ∃ pr ∈ dbC2.progress, pr.user = 7 ∧ pr.level = lvl3.level_number - 1 ∧
         pr.is_completed = true)) :=
  ⟨c2_unlock_rule.1 dbC2 7 lvl1 rfl, c2_unlock_rule.2 dbC2 7 lvl3 (by decide)⟩

theorem unlock_progress_cases (db : DB) (u n : Nat) (q : UserLevelProgress)
    (hq : q ∈ (unlock_next_level db u n).progress) :
    q ∈ db.progress ∨ (q.user = u ∧ q.level = n + 1 ∧
      q.puzzles_completed = 0 ∧ q.is_completed = false) := by
  unfold unlock_next_level at hq
  cases hfind : db.levels.find? (fun l => l.level_number == n + 1 && l.is_active) with
  | none =>
    rw [hfind] at hq
    exact Or.inl hq
  | some next =>
    rw [hfind] at hq
    dsimp only at hq
    unfold ensureProgressRow at hq
    by_cases hany : (db.progress.any (fun p => p.user == u && p.level == next.level_number)) = true
    · rw [if_pos hany] at hq
      exact Or.inl hq
    · rw [if_neg hany] at hq
      simp only [List.mem_append, List.mem_singleton] at hq
      cases hq with
      | inl hmem => exact Or.inl hmem
      | inr heq =>
        subst heq
        have hnum : next.level_number = n + 1 := by
          have := List.find?_some hfind
          simp only [Bool.and_eq_true, beq_iff_eq] at this
          exact this.1
        exact Or.inr ⟨rfl, by simpa using hnum, rfl, rfl⟩

theorem mem_updateProgress (db : DB) (u n : Nat)
    (f : UserLevelProgress → UserLevelProgress) (q : UserLevelProgress)
    (hq : q ∈ (db.updateProgress u n f).progress) :
    ∃ p ∈ db.progress, q = if p.user == u && p.level == n then f p else p := by
  unfold DB.updateProgress at hq
  simp only [List.mem_map] at hq
  obtain ⟨p, hp, he⟩ := hq
  exact ⟨p, hp, he.symm⟩

theorem ensureProgressRow_mem (db : DB) (u n : Nat) :
    ∃ q ∈ (ensureProgressRow db u n).progress, q.user = u ∧ q.level = n := by
  unfold ensureProgressRow
  by_cases hany : (db.progress.any (fun p => p.user == u && p.level == n)) = true
  · rw [if_pos hany]
    obtain ⟨q, hq, hcond⟩ := List.any_eq_true.mp hany
    simp only [Bool.and_eq_true, beq_iff_eq] at hcond
    exact ⟨q, hq, hcond⟩
  · rw [if_neg hany]
    refine ⟨{ user := u, level := n, puzzles_completed := 0, is_completed := false,
              completed_at := none, total_score := 0 }, ?_, rfl, rfl⟩
    simp

theorem check_completion_guard_reduces (db : DB) (u n now : Nat)
    (p : UserLevelProgress) (lv : PuzzleLevel)
    (hp : db.progress.find? (fun q => q.user == u && q.level == n) = some p)
    (hl : db.levels.find? (fun l => l.level_number == n) = some lv)
    (hreq : lv.puzzles_required ≤ p.puzzles_completed)
    (hnc : p.is_completed = false) :
    check_completion db u n now =
      unlock_next_level (db.updateProgress u n (fun q =>
        { q with is_completed := true, completed_at := some now })) u n := by
  unfold check_completion
  rw [hp, hl]
  dsimp only
  rw [if_pos ⟨hreq, hnc⟩]

theorem check_completion_marks (db : DB) (u n now : Nat)
    (p : UserLevelProgress) (lv : PuzzleLevel)
    (hp : db.progress.find? (fun q => q.user == u && q.level == n) = some p)
    (hl : db.levels.find? (fun l => l.level_number == n) = some lv)
    (hreq : lv.puzzles_required ≤ p.puzzles_completed)
    (hnc : p.is_completed = false) :
    ∀ q ∈ (check_completion db u n now).progress, q.user = u → q.level = n →
      q.is_completed = true ∧ q.completed_at = some now := by
  rw [check_completion_guard_reduces db u n now p lv hp hl hreq hnc]
  intro q hq hu hlev
  rcases unlock_progress_cases _ u n q hq with hmem | ⟨-, hl2, -, -⟩
  · obtain ⟨p0, hp0, hqe⟩ := mem_updateProgress db u n _ q hmem
    by_cases hk : (p0.user == u && p0.level == n) = true
    · rw [if_pos hk] at hqe
      subst hqe
      exact ⟨rfl, rfl⟩
    · rw [if_neg hk] at hqe
      subst hqe
      exact absurd (by simp [hu, hlev]) hk
  · omega

end GeoSudoku

namespace GeoSudoku

/-- C3 counterexample: in `dbC3` the next sequential level (level 2) exists
but is deactivated; completing level 1 marks it completed, yet no
LevelProgress row for level 2 is created, because `unlock_next_level`
filters on `is_active=True`. -/
theorem c3_counterexample :
    (∃ pr ∈ (check_completion dbC3 7 1 5).progress,
      pr.user = 7 ∧ pr.level = 1 ∧ pr.is_completed = true) ∧
    ¬ (∃ pr ∈ (check_completion dbC3 7 1 5).progress, pr.level = 2) := by
  decide

/-- C3 (amended): when `puzzles_completed >= puzzles_required` and the row
is not yet completed, `check_completion` marks the row completed and stamps
`completed_at`; it creates (if absent) a LevelProgress row for the next
sequential level provided that level exists AND is active; every row of the
resulting store either has a key already present or is the fresh
(user, N+1) row — never a level beyond the immediate next; and when the row
is already completed the call changes nothing. -/
theorem c3_completion_cascade :
    (∀ (db : DB) (u n now : Nat) (p : UserLevelProgress) (lv : PuzzleLevel),
      db.progress.find? (fun q => q.user == u && q.level == n) = some p →
      db.levels.find? (fun l => l.level_number == n) = some lv →
      lv.puzzles_required ≤ p.puzzles_completed → p.is_completed = false →
      (∀ q ∈ (check_completion db u n now).progress, q.user = u → q.level = n →
        q.is_completed = true ∧ q.completed_at = some now) ∧
      ((db.levels.find? (fun l => l.level_number == n + 1 && l.is_active)).isSome →
        ∃ q ∈ (check_completion db u n now).progress, q.user = u ∧ q.level = n + 1)) ∧
    (∀ (db : DB) (u n now : Nat) (q : UserLevelProgress),
      q ∈ (check_completion db u n now).progress →
      (∃ p ∈ db.progress, p.user = q.user ∧ p.level = q.level) ∨
        (q.user = u ∧ q.level = n + 1)) ∧
    (∀ (db : DB) (u n now : Nat) (p : UserLevelProgress),
      db.progress.find? (fun q => q.user == u && q.level == n) = some p →
      p.is_completed = true → check_completion db u n now = db) := by
  refine ⟨?_, ?_, ?_⟩
  · intro db u n now p lv hp hl hreq hnc
    refine ⟨check_completion_marks db u n now p lv hp hl hreq hnc, ?_⟩
    intro hsome
    rw [check_completion_guard_reduces db u n now p lv hp hl hreq hnc]
    obtain ⟨next, hnext⟩ := Option.isSome_iff_exists.mp hsome
    have hnext' : (db.updateProgress u n (fun q =>
        { q with is_completed := true, completed_at := some now })).levels.find?
        (fun l => l.level_number == n + 1 && l.is_active) = some next := hnext
    unfold unlock_next_level
    rw [hnext']
    have hnum : next.level_number = n + 1 := by
      have := List.find?_some hnext
      simp only [Bool.and_eq_true, beq_iff_eq] at this
      exact this.1
    obtain ⟨q, hq, hu, hl2⟩ := ensureProgressRow_mem
      (db.updateProgress u n (fun q =>
        { q with is_completed := true, completed_at := some now })) u next.level_number
    exact ⟨q, hq, hu, by rw [hl2, hnum]⟩
  · intro db u n now q hq
    unfold check_completion at hq
    cases hfp : db.progress.find? (fun r => r.user == u && r.level == n) with
    | none =>
      rw [hfp] at hq
      exact Or.inl ⟨q, hq, rfl, rfl⟩
    | some p =>
      rw [hfp] at hq
      cases hfl : db.levels.find? (fun l => l.level_number == n) with
      | none =>
        rw [hfl] at hq
        exact Or.inl ⟨q, hq, rfl, rfl⟩
      | some lv =>
        rw [hfl] at hq
        dsimp only at hq
        by_cases hg : p.puzzles_completed ≥ lv.puzzles_required ∧ p.is_completed = false
        · rw [if_pos hg] at hq
          rcases unlock_progress_cases _ u n q hq with hmem | ⟨hu, hl2, -, -⟩
          · obtain ⟨p0, hp0, hqe⟩ := mem_updateProgress db u n _ q hmem
            left
            refine ⟨p0, hp0, ?_, ?_⟩
            · by_cases hk : (p0.user == u && p0.level == n) = true
              · rw [if_pos hk] at hqe
                rw [hqe]
              · rw [if_neg hk] at hqe
                rw [hqe]
            · by_cases hk : (p0.user == u && p0.level == n) = true
              · rw [if_pos hk] at hqe
                rw [hqe]
              · rw [if_neg hk] at hqe
                rw [hqe]
          · exact Or.inr ⟨hu, hl2⟩
        · rw [if_neg hg] at hq
          exact Or.inl ⟨q, hq, rfl, rfl⟩
  · intro db u n now p hp hc
    unfold check_completion
    rw [hp]
    cases hfl : db.levels.find? (fun l => l.level_number == n) with
    | none => rfl
    | some lv =>
      dsimp only
      rw [if_neg]
      intro hcon
      rw [hc] at hcon
      exact Bool.noConfusion hcon.2

theorem c3_completion_cascade_witness :
    (∃ q ∈ (check_completion dbC3b 7 1 5).progress, q.user = 7 ∧ q.level = 2) ∧
    check_completion dbC3c 7 1 5 = dbC3c := by
  constructor
  · exact (c3_completion_cascade.1 dbC3b 7 1 5 rowC3 lvl1 rfl rfl (by decide) rfl).2
      (by decide)
  · exact c3_completion_cascade.2.2 dbC3c 7 1 5 rowDone rfl rfl

end GeoSudoku

namespace GeoSudoku

/-- C10: in games/level_models.py, whenever the guard of
`UserLevelProgress.check_completion` holds, or
`UserPuzzleAttempt.complete_attempt` runs on a not-yet-completed attempt,
the method evaluates `models.timezone.now()` — an attribute missing from
`django.db.models` — and raises `AttributeError` instead of completing; the
identically named method in games/models.py uses the correctly imported
`timezone` and completes the row. -/
theorem c10_level_models_timezone_bug :
    (∀ (db : DB) (u n : Nat) (p : UserLevelProgress) (lv : PuzzleLevel),
      db.progress.find? (fun q => q.user == u && q.level == n) = some p →
      db.levels.find? (fun l => l.level_number == n) = some lv →
      lv.puzzles_required ≤ p.puzzles_completed → p.is_completed = false →
      LM_check_completion db u n =
        .error "AttributeError: module django.db.models has no attribute timezone") ∧
    (∀ (db : DB) (u lp score : Nat) (a : UserPuzzleAttempt),
      db.upAttempts.find? (fun b => b.user == u && b.level_puzzle == lp) = some a →
      a.is_completed = false →
      LM_complete_attempt db u lp score =
        .error "AttributeError: module django.db.models has no attribute timezone") ∧
    (∀ (db : DB) (u n now : Nat) (p : UserLevelProgress) (lv : PuzzleLevel),
      db.progress.find? (fun q => q.user == u && q.level == n) = some p →
      db.levels.find? (fun l => l.level_number == n) = some lv →
      lv.puzzles_required ≤ p.puzzles_completed → p.is_completed = false →
      ∀ q ∈ (check_completion db u n now).progress, q.user = u → q.level = n →
        q.is_completed = true) := by
  refine ⟨?_, ?_, ?_⟩
  · intro db u n p lv hp hl hreq hnc
    unfold LM_check_completion
    rw [hp, hl]
    dsimp only
    rw [if_pos ⟨hreq, hnc⟩]
    rfl
  · intro db u lp score a ha hc
    unfold LM_complete_attempt
    rw [ha]
    dsimp only
    rw [if_neg]
    · rfl
    · intro hcon
      rw [hc] at hcon
      exact Bool.noConfusion hcon
  · intro db u n now p lv hp hl hreq hnc q hq hu hlev
    exact (check_completion_marks db u n now p lv hp hl hreq hnc q hq hu hlev).1

theorem c10_level_models_timezone_bug_witness :
    LM_check_completion dbC3 7 1 =
      .error "AttributeError: module django.db.models has no attribute timezone" ∧
    LM_complete_attempt dbC10 7 10 50 =
      .error "AttributeError: module django.db.models has no attribute timezone" ∧
    ∀ q ∈ (check_completion dbC3 7 1 5).progress, q.user = 7 → q.level = 1 →
      q.is_completed = true :=
  ⟨c10_level_models_timezone_bug.1 dbC3 7 1 rowC3 lvl1 rfl rfl (by decide) rfl,
   c10_level_models_timezone_bug.2.1 dbC10 7 10 50 upaC10 rfl rfl,
   c10_level_models_timezone_bug.2.2 dbC3 7 1 5 rowC3 lvl1 rfl rfl (by decide) rfl⟩

end GeoSudoku

namespace GeoSudoku

/-- C1 counterexample: the first finalize request stores a completed attempt
with score 10; a duplicate finalize request for the same (user, puzzle) with
a different payload does not return the stored result — `get_or_create`
filters on `status=IN_PROGRESS`, so a fresh attempt is created and re-scored
(here to 0), leaving two completed attempt rows. -/
theorem c1_counterexample :
    ((api_save_shape_game_state dbC1 7 0 payloadC1a 100).2.map (fun r => r.score)) =
      some 10 ∧
    (∃ a ∈ dbC1a.shapeAttempts, a.status = GameStatus.completed ∧ a.score = 10) ∧
    ((api_save_shape_game_state dbC1a 7 0 payloadC1b 200).2.map (fun r => r.score)) =
      some 0 ∧
    dbC1b.shapeAttempts.length = 2 := by
  refine ⟨?_, ?_, ?_, ?_⟩ <;> decide

/-- C1 (amended): a second finalize request never mutates the stored
completed attempt — every attempt row whose status is not `in_progress`
survives `api_save_shape_game_state` unchanged (the endpoint instead creates
and scores a fresh attempt) — and the downstream progress update is guarded:
`complete_attempt` on an already-completed `UserPuzzleAttempt` is a no-op,
so `puzzles_completed` of the associated LevelProgress is not changed a
second time. -/
theorem c1_finalize_guards :
    (∀ (db : DB) (uid gid : Nat) (payload : SavePayload) (now : Nat),
      AttemptIdsOk db → ∀ a ∈ db.shapeAttempts, a.status = GameStatus.completed →
        a ∈ (api_save_shape_game_state db uid gid payload now).1.shapeAttempts) ∧
    (∀ (db : DB) (u lp score now : Nat) (a : UserPuzzleAttempt),
      db.upAttempts.find? (fun b => b.user == u && b.level_puzzle == lp) = some a →
      a.is_completed = true → complete_attempt db u lp score now = db) := by
  constructor
  · intro db uid gid payload now hids a ha hstat
    unfold api_save_shape_game_state
    cases hg : db.shapeGames.find? (fun g => g.id == gid && g.is_active) with
    | none => exact ha
    | some game =>
      dsimp only
      cases hfound : db.shapeAttempts.find? (fun b =>
          b.user == uid && b.shape_game == gid && b.status == GameStatus.in_progress) with
      | some a0 =>
        dsimp only
        have hstat0 : a0.status = GameStatus.in_progress := by
          have := List.find?_some hfound
          simp only [Bool.and_eq_true, beq_iff_eq] at this
          exact this.2
        have hne : a ≠ a0 := by
          intro he
          rw [he, hstat0] at hstat
          exact GameStatus.noConfusion hstat
        have hidne : (a.id == a0.id) = false := by
          simp only [beq_eq_false_iff_ne, ne_eq]
          intro he
          exact hne (List.inj_on_of_nodup_map hids.1 ha
            (List.mem_of_find?_eq_some hfound) he)
        by_cases hps : (payload.status == some "completed") = true
        · simp only [hps, if_true]
          apply List.mem_map.mpr
          exact ⟨a, ha, by rw [if_neg (by simp [hidne])]⟩
        · simp only [hps, Bool.false_eq_true, if_false]
          apply List.mem_map.mpr
          exact ⟨a, ha, by rw [if_neg (by simp [hidne])]⟩
      | none =>
        dsimp only
        have hidne : (a.id == db.nextAttemptId) = false := by
          simp only [beq_eq_false_iff_ne, ne_eq]
          exact Nat.ne_of_lt (hids.2 a ha)
        by_cases hps : (payload.status == some "completed") = true
        · simp only [hps, if_true]
          apply List.mem_map.mpr
          refine ⟨a, List.mem_append_left _ ha, ?_⟩
          rw [if_neg (by simp [hidne])]
        · simp only [hps, Bool.false_eq_true, if_false]
          apply List.mem_map.mpr
          refine ⟨a, List.mem_append_left _ ha, ?_⟩
          rw [if_neg (by simp [hidne])]
  · intro db u lp score now a hfind hc
    unfold complete_attempt
    rw [hfind]
    dsimp only
    rw [if_pos hc]

theorem c1_finalize_guards_witness :
    (∀ a ∈ dbC1a.shapeAttempts, a.status = GameStatus.completed →
      a ∈ (api_save_shape_game_state dbC1a 7 0 payloadC1b 200).1.shapeAttempts) ∧
    complete_attempt dbC3c2 7 10 50 6 = dbC3c2 := by
  constructor
  · intro a ha hstat
    exact c1_finalize_guards.1 dbC1a 7 0 payloadC1b 200 ⟨by decide, by decide⟩ a ha hstat
  · exact c1_finalize_guards.2 dbC3c2 7 10 50 6 upaDone rfl rfl

end GeoSudoku

namespace GeoSudoku

theorem hasAchievement_false_iff (grants : List UserAchievement) (u : UserId)
    (aid : Nat) :
    hasAchievement grants u aid = false ↔
      ¬ ∃ ua ∈ grants, ua.user = u ∧ ua.achievement = aid := by
  unfold hasAchievement
  rw [← Bool.not_eq_true, List.any_eq_true]
  simp only [Bool.and_eq_true, beq_iff_eq]

theorem find?_bumpUserScore (users : List UserRec) (u : UserId) (d : Int) :
    (bumpUserScore users u d).find? (fun v => v.id == u) =
      (users.find? (fun v => v.id == u)).map
        (fun v => { v with total_score := v.total_score + d }) := by
  unfold bumpUserScore
  induction users with
  | nil => rfl
  | cons v rest ih =>
    rw [List.map_cons]
    by_cases hv : (v.id == u) = true
    · have hv' : (({ v with total_score := v.total_score + d } : UserRec).id == u) = true := hv
      rw [if_pos hv]
      simp only [List.find?, hv, hv']
      rfl
    · have hvf : (v.id == u) = false := by
        simpa using hv
      rw [if_neg hv]
      simp only [List.find?, hvf]
      exact ih

theorem award_part_facts {l : List Achievement} {p ng : Achievement → Bool}
    {a : Achievement} (ha : a ∈ (l.filter p).filter ng) :
    a ∈ l ∧ p a = true ∧ ng a = true := by
  rw [List.mem_filter] at ha
  obtain ⟨ha1, hng⟩ := ha
  rw [List.mem_filter] at ha1
  exact ⟨ha1.1, ha1.2, hng⟩

end GeoSudoku

namespace GeoSudoku

theorem award_ids_disjoint {l : List Achievement}
    (hids : (l.map (fun a => a.id)).Nodup) {p1 p2 ng : Achievement → Bool}
    (t1 t2 : String) (hne : t1 ≠ t2)
    (h1 : ∀ a, p1 a = true → a.requirement_type = t1)
    (h2 : ∀ a, p2 a = true → a.requirement_type = t2) :
    List.Disjoint (((l.filter p1).filter ng).map (fun a => a.id))
      (((l.filter p2).filter ng).map (fun a => a.id)) := by
  intro x hx1 hx2
  obtain ⟨a1, ha1, he1⟩ := List.mem_map.mp hx1
  obtain ⟨a2, ha2, he2⟩ := List.mem_map.mp hx2
  obtain ⟨hm1, hpp1, -⟩ := award_part_facts ha1
  obtain ⟨hm2, hpp2, -⟩ := award_part_facts ha2
  have heq : a1 = a2 := List.inj_on_of_nodup_map hids hm1 hm2 (by rw [he1, he2])
  exact hne (by rw [← h1 a1 hpp1, heq, h2 a2 hpp2])

theorem award_ids_nodup {l : List Achievement}
    (hids : (l.map (fun a => a.id)).Nodup) (p ng : Achievement → Bool) :
    (((l.filter p).filter ng).map (fun a => a.id)).Nodup := by
  have hsub : List.Sublist ((l.filter p).filter ng) l :=
    (List.filter_sublist _).trans (List.filter_sublist _)
  exact List.Nodup.sublist (List.Sublist.map _ hsub) hids

/-- C8: with unique achievement ids and the unique (user, achievement)
constraint, `check_user_achievements` never creates a duplicate
UserAchievement pair (so at most one row per pair ever exists, however often
it runs), grants in a single pass every active achievement of a handled
requirement type whose threshold is met by the corresponding metric and that
is not yet held, and adds exactly the sum of the awarded `points_reward`
values to the user's total score. -/
theorem c8_achievement_grants (db : DB) (u : UserId)
    (hach : (db.achievements.map (fun a => a.id)).Nodup)
    (hgr : (db.userAchievements.map (fun ua => (ua.user, ua.achievement))).Nodup)
    (huser : ∃ v ∈ db.users, v.id = u) :
    ((check_user_achievements db u).1.userAchievements.map
        (fun ua => (ua.user, ua.achievement))).Nodup ∧
    (∀ a ∈ db.achievements, a.is_active = true →
      ((a.requirement_type = "levels_completed" ∧
          a.requirement_value ≤ completedLevelsCount db u) ∨
       (a.requirement_type = "puzzles_solved" ∧
          a.requirement_value ≤ completedPuzzlesCount db u) ∨
       (a.requirement_type = "score_reached" ∧
          (a.requirement_value : Int) ≤ userTotalScore db u)) →
      (¬ ∃ ua ∈ db.userAchievements, ua.user = u ∧ ua.achievement = a.id) →
      ∃ ua ∈ (check_user_achievements db u).1.userAchievements,
        ua.user = u ∧ ua.achievement = a.id) ∧
    userTotalScore (check_user_achievements db u).1 u =
      userTotalScore db u +
        ((check_user_achievements db u).2.map
          (fun a => (a.points_reward : Int))).sum := by
  have hTA : (check_user_achievements db u).2 =
      (db.achievements.filter (fun a => a.requirement_type == "levels_completed" &&
          decide (a.requirement_value ≤ completedLevelsCount db u) && a.is_active)).filter
        (fun a => !hasAchievement db.userAchievements u a.id) ++
      (db.achievements.filter (fun a => a.requirement_type == "puzzles_solved" &&
          decide (a.requirement_value ≤ completedPuzzlesCount db u) && a.is_active)).filter
        (fun a => !hasAchievement db.userAchievements u a.id) ++
      (db.achievements.filter (fun a => a.requirement_type == "score_reached" &&
          decide ((a.requirement_value : Int) ≤ userTotalScore db u) && a.is_active)).filter
        (fun a => !hasAchievement db.userAchievements u a.id) := rfl
  have hgrants : (check_user_achievements db u).1.userAchievements =
      db.userAchievements ++ ((check_user_achievements db u).2.map
        (fun a => ({ user := u, achievement := a.id } : UserAchievement))) := rfl
  have hmemAward : ∀ a ∈ (check_user_achievements db u).2,
      a ∈ db.achievements ∧ (!hasAchievement db.userAchievements u a.id) = true := by
    intro a ha
    rw [hTA] at ha
    rcases List.mem_append.mp ha with h | h
    · rcases List.mem_append.mp h with h2 | h2
      · obtain ⟨hm, -, hng⟩ := award_part_facts h2
        exact ⟨hm, hng⟩
      · obtain ⟨hm, -, hng⟩ := award_part_facts h2
        exact ⟨hm, hng⟩
    · obtain ⟨hm, -, hng⟩ := award_part_facts h
      exact ⟨hm, hng⟩
  refine ⟨?_, ?_, ?_⟩
  · rw [hgrants, List.map_append]
    have hidsTA : ((check_user_achievements db u).2.map (fun a => a.id)).Nodup := by
      rw [hTA, List.map_append, List.map_append]
      have hty1 : ∀ a : Achievement, (a.requirement_type == "levels_completed" &&
          decide (a.requirement_value ≤ completedLevelsCount db u) && a.is_active) = true →
          a.requirement_type = "levels_completed" := by
        intro a h
        simp only [Bool.and_eq_true, beq_iff_eq] at h
        exact h.1.1
      have hty2 : ∀ a : Achievement, (a.requirement_type == "puzzles_solved" &&
          decide (a.requirement_value ≤ completedPuzzlesCount db u) && a.is_active) = true →
          a.requirement_type = "puzzles_solved" := by
        intro a h
        simp only [Bool.and_eq_true, beq_iff_eq] at h
        exact h.1.1
      have hty3 : ∀ a : Achievement, (a.requirement_type == "score_reached" &&
          decide ((a.requirement_value : Int) ≤ userTotalScore db u) && a.is_active) = true →
          a.requirement_type = "score_reached" := by
        intro a h
        simp only [Bool.and_eq_true, beq_iff_eq] at h
        exact h.1.1
      refine List.Nodup.append
        (List.Nodup.append (award_ids_nodup hach _ _) (award_ids_nodup hach _ _)
          (award_ids_disjoint hach "levels_completed" "puzzles_solved" (by decide) hty1 hty2))
        (award_ids_nodup hach _ _) ?_
      intro x hx1 hx2
      rcases List.mem_append.mp hx1 with h1 | h1
      · exact award_ids_disjoint hach "levels_completed" "score_reached" (by decide)
          hty1 hty3 h1 hx2
      · exact award_ids_disjoint hach "puzzles_solved" "score_reached" (by decide)
          hty2 hty3 h1 hx2
    apply List.Nodup.append hgr
    · rw [List.map_map]
      have hcomp : ((fun ua : UserAchievement => (ua.user, ua.achievement)) ∘
          (fun a : Achievement => ({ user := u, achievement := a.id } : UserAchievement))) =
          ((Prod.mk u) ∘ (fun a : Achievement => a.id)) := rfl
      rw [hcomp, ← List.map_map]
      apply List.Nodup.map
      · intro x y hxy
        simpa using hxy
      · exact hidsTA
    · intro k hk1 hk2
      rw [List.map_map] at hk2
      obtain ⟨a, ha, hka⟩ := List.mem_map.mp hk2
      obtain ⟨ua, hua, hkua⟩ := List.mem_map.mp hk1
      obtain ⟨-, hng⟩ := hmemAward a ha
      rw [Bool.not_eq_true'] at hng
      apply (hasAchievement_false_iff _ _ _).mp hng
      refine ⟨ua, hua, ?_, ?_⟩
      · have h1 : (ua.user, ua.achievement) = ((u, a.id) : UserId × Nat) := by
          rw [hkua, ← hka]
          rfl
        exact congrArg Prod.fst h1
      · have h1 : (ua.user, ua.achievement) = ((u, a.id) : UserId × Nat) := by
          rw [hkua, ← hka]
          rfl
        exact congrArg Prod.snd h1
  · intro a ha hactive hqual hnot
    have hng : (!hasAchievement db.userAchievements u a.id) = true := by
      rw [Bool.not_eq_true']
      exact (hasAchievement_false_iff _ _ _).mpr hnot
    have hmem : a ∈ (check_user_achievements db u).2 := by
      rw [hTA]
      rcases hqual with ⟨ht, hv⟩ | ⟨ht, hv⟩ | ⟨ht, hv⟩
      · apply List.mem_append_left
        apply List.mem_append_left
        rw [List.mem_filter]
        refine ⟨?_, hng⟩
        rw [List.mem_filter]
        exact ⟨ha, by simp [ht, hv, hactive]⟩
      · apply List.mem_append_left
        apply List.mem_append_right
        rw [List.mem_filter]
        refine ⟨?_, hng⟩
        rw [List.mem_filter]
        exact ⟨ha, by simp [ht, hv, hactive]⟩
      · apply List.mem_append_right
        rw [List.mem_filter]
        refine ⟨?_, hng⟩
        rw [List.mem_filter]
        exact ⟨ha, by simp [ht, hv, hactive]⟩
    rw [hgrants]
    refine ⟨{ user := u, achievement := a.id }, ?_, rfl, rfl⟩
    apply List.mem_append_right
    exact List.mem_map_of_mem _ hmem
  · have husers : (check_user_achievements db u).1.users =
        (if (check_user_achievements db u).2.isEmpty then db.users
         else bumpUserScore db.users u
          (((check_user_achievements db u).2.map
            (fun a => (a.points_reward : Int))).sum)) := rfl
    by_cases he : (check_user_achievements db u).2.isEmpty = true
    · have hempty : (check_user_achievements db u).2 = [] :=
        List.isEmpty_iff.mp he
      unfold userTotalScore
      rw [husers, if_pos he, hempty]
      simp
    · unfold userTotalScore
      rw [husers, if_neg he, find?_bumpUserScore]
      obtain ⟨v, hv, hvid⟩ := huser
      have hsome : (db.users.find? (fun x => x.id == u)).isSome := by
        rw [List.find?_isSome]
        exact ⟨v, hv, by simp [hvid]⟩
      obtain ⟨w, hw⟩ := Option.isSome_iff_exists.mp hsome
      rw [hw]
      simp

end GeoSudoku

namespace GeoSudoku

theorem c8_achievement_grants_witness :
    ((check_user_achievements dbC8 7).1.userAchievements.map
        (fun ua => (ua.user, ua.achievement))).Nodup ∧
    (∃ ua ∈ (check_user_achievements dbC8 7).1.userAchievements,
      ua.user = 7 ∧ ua.achievement = achLevels.id) ∧
    userTotalScore (check_user_achievements dbC8 7).1 7 =
      userTotalScore dbC8 7 +
        ((check_user_achievements dbC8 7).2.map
          (fun a => (a.points_reward : Int))).sum := by
  have h := c8_achievement_grants dbC8 7 (by decide) (by decide) (by decide)
  exact ⟨h.1, h.2.1 achLevels (by decide) (by decide)
    (Or.inl ⟨rfl, by decide⟩) (by decide), h.2.2⟩

end GeoSudoku
